import Mathlib

/-!
# Verification of the weight-tracker bot core

Shallow embedding of the ledger / analytics core of the weight-tracker bot
(`src/bot.py` and `src/bot_webhook.py`).  The two source files implement the
same core logic (polling vs. webhook transport); the embedding below follows
`src/bot.py` and notes the (identical) `src/bot_webhook.py` code where a claim
cites it.

Python `float` values are modelled exactly as rationals extended with the
IEEE special values `nan`, `inf`, `-inf` (rounding of binary floats is not
modelled; all arithmetic the code performs is exact in this model).  Python
strings are modelled as `List Char`; decimal digits are modelled as ASCII
digits (CPython additionally accepts other Unicode decimal digits in
numeric parsing, which no claim exercises).
-/

namespace WeightTracker

/-- Model of a Python float value: a finite rational, or one of the IEEE
special values `nan`, `+inf`, `-inf`. -/
inductive PyVal where
  | fin (q : ℚ)
  | nan
  | inf
  | ninf
deriving DecidableEq, Repr

/-- Exact rational addition written with the kernel-reducible `Rat.divInt`
(equal to `a + b`, see `qAdd_eq`). -/
def qAdd (a b : ℚ) : ℚ :=
  Rat.divInt (a.num * (b.den : Int) + b.num * (a.den : Int)) ((a.den : Int) * (b.den : Int))

/-- Exact rational division by a machine integer, written with the
kernel-reducible `Rat.divInt` (equal to `a / n`, see `qDivNat_eq`). -/
def qDivNat (a : ℚ) (n : Nat) : ℚ := Rat.divInt a.num ((a.den : Int) * (n : Int))

/-- IEEE `<` comparison on modelled float values: comparisons involving
`nan` are false. -/
def pyLt : PyVal → PyVal → Bool
  | .fin a, .fin b => Rat.blt a b
  | .fin _, .inf => true
  | .ninf, .fin _ => true
  | .ninf, .inf => true
  | _, _ => false

/-- IEEE negation. -/
def pyNeg : PyVal → PyVal
  | .fin q => .fin (Rat.neg q)
  | .nan => .nan
  | .inf => .ninf
  | .ninf => .inf

/-- IEEE addition on modelled float values (`nan` absorbs; `inf + -inf = nan`). -/
def pyAdd : PyVal → PyVal → PyVal
  | .fin a, .fin b => .fin (qAdd a b)
  | .fin _, v => v
  | .nan, _ => .nan
  | .inf, .fin _ => .inf
  | .inf, .inf => .inf
  | .inf, .ninf => .nan
  | .inf, .nan => .nan
  | .ninf, .fin _ => .ninf
  | .ninf, .ninf => .ninf
  | .ninf, .inf => .nan
  | .ninf, .nan => .nan

/-- IEEE subtraction. -/
def pySub (a b : PyVal) : PyVal := pyAdd a (pyNeg b)

/-- Division of a float by a positive machine integer (the only division the
code performs: `sum(...) / len(...)` with a nonempty list). -/
def pyDivNat (v : PyVal) (n : Nat) : PyVal :=
  match v with
  | .fin q => .fin (qDivNat q n)
  | .nan => .nan
  | .inf => .inf
  | .ninf => .ninf

/-- Python `sum(listOfFloats)`: left fold of `+` starting from `0`. -/
def pySum (l : List PyVal) : PyVal := l.foldl pyAdd (.fin 0)

/-! ## Model of CPython `float(str)`

The grammar accepted by CPython's `float` constructor on `str` input:
optional surrounding whitespace, an optional sign, then either one of the
special names `inf` / `infinity` / `nan` (case-insensitive) or a decimal
literal `digitpart? "." digitpart? | digitpart` with an optional exponent,
where a `digitpart` is digits with single underscores allowed between
digits.  The numeric value is computed exactly (as a rational). -/

/-- Numeric value of a decimal digit character. -/
def digitVal (c : Char) : Nat := c.toNat - 48

/-- Continue a `digitpart` after at least one digit has been read: consume
further digits, allowing a single `_` between digits.  Returns the
accumulated value, the digit count, and the unconsumed rest. -/
def digitsAux : List Char → Nat → Nat → Nat × Nat × List Char
  | '_' :: d :: rest, acc, cnt =>
    if d.isDigit then digitsAux rest (acc * 10 + digitVal d) (cnt + 1)
    else (acc, cnt, '_' :: d :: rest)
  | c :: rest, acc, cnt =>
    if c.isDigit then digitsAux rest (acc * 10 + digitVal c) (cnt + 1)
    else (acc, cnt, c :: rest)
  | [], acc, cnt => (acc, cnt, [])

/-- Parse a `digitpart` (at least one digit, `_` allowed between digits).
Returns its value, its digit count and the unconsumed rest. -/
def parseDigitPart : List Char → Option (Nat × Nat × List Char)
  | c :: rest => if c.isDigit then some (digitsAux rest (digitVal c) 1) else none
  | [] => none

/-- Strip leading and trailing whitespace (CPython strips whitespace around
the numeric literal). -/
def stripSpaces (cs : List Char) : List Char :=
  ((cs.dropWhile Char.isWhitespace).reverse.dropWhile Char.isWhitespace).reverse

/-- Split an optional leading sign; `true` means negative. -/
def splitSign : List Char → Bool × List Char
  | '+' :: r => (false, r)
  | '-' :: r => (true, r)
  | r => (false, r)

/-- Parse the mantissa of a decimal float literal:
`digitpart "." digitpart? | "." digitpart | digitpart`.
Returns the mantissa as a pair (all mantissa digits as one number, count of
fractional digits), together with the unconsumed rest. -/
def parseMantissa (cs : List Char) : Option ((Nat × Nat) × List Char) :=
  match parseDigitPart cs with
  | some (ip, _, rest) =>
    match rest with
    | '.' :: rest2 =>
      match parseDigitPart rest2 with
      | some (fp, fcnt, rest3) => some ((ip * Nat.pow 10 fcnt + fp, fcnt), rest3)
      | none => some ((ip, 0), rest2)
    | _ => some ((ip, 0), rest)
  | none =>
    match cs with
    | '.' :: rest2 =>
      (parseDigitPart rest2).map (fun p => ((p.1, p.2.1), p.2.2))
    | _ => none

/-- Parse an optional exponent `("e"|"E") sign? digitpart`. -/
def parseExp (cs : List Char) : Option (Int × List Char) :=
  match cs with
  | c :: rest =>
    if c = 'e' ∨ c = 'E' then
      let s := splitSign rest
      match parseDigitPart s.2 with
      | some (e, _, r3) => some (if s.1 then -(e : Int) else (e : Int), r3)
      | none => none
    else some (0, cs)
  | [] => some (0, [])

/-- Exact value `(±mantissaDigits) * 10^e / 10^fcnt` of a parsed decimal
literal, built from kernel-reducible operations only. -/
def mkFin (neg : Bool) (num fcnt : Nat) (e : Int) : ℚ :=
  let n : Int := if neg then -(num : Int) else (num : Int)
  match e with
  | .ofNat k => Rat.divInt (n * (Nat.pow 10 k : Int)) (Nat.pow 10 fcnt : Int)
  | .negSucc k => Rat.divInt n (Nat.pow 10 (fcnt + (k + 1)) : Int)

/-- Model of CPython `float(s)` on a string: `none` models a `ValueError`. -/
def pyFloat (cs : List Char) : Option PyVal :=
  let stripped := stripSpaces cs
  let sr := splitSign stripped
  let low := sr.2.map Char.toLower
  if low = "inf".toList ∨ low = "infinity".toList then
    some (if sr.1 then .ninf else .inf)
  else if low = "nan".toList then some .nan
  else
    match parseMantissa sr.2 with
    | some (m, rest) =>
      match parseExp rest with
      | some (e, []) => some (.fin (mkFin sr.1 m.1 m.2 e))
      | _ => none
    | none => none

/-! ## The weight ledger ('Pesi' worksheet)

A row of the sheet as returned by `get_all_records()`.  `userId` models
`str(record.get('User ID'))` (both sides of every comparison in the code go
through `str`), `data` is the raw `'Data'` cell, and `peso` models the result
of `float(record.get('Peso (kg)', 0))`: `some v` when the call returns the
float `v` (a missing cell defaults to `0`), `none` when it raises and the
code skips the row. -/

structure SheetRow where
  userId : String
  username : String
  data : String
  peso : Option PyVal
  timestamp : String
deriving DecidableEq

/-- The linear scan
`for idx, record in enumerate(all_records, start=2): if <match>: row = idx; break`
of `register_weight` / `toggle_notifica`, as a 0-based position in the list
(the `start=2` offset only translates list position to sheet row number). -/
def findRowIdx (p : α → Bool) : List α → Option Nat
  | [] => none
  | a :: l => match p a with
    | true => some 0
    | false => (findRowIdx p l).map (· + 1)

/-- Result of `register_weight` (`src/bot.py:90-163`, `src/bot_webhook.py:95-139`):
which reply the handler sends and which path it took. -/
inductive RegisterResult where
  | invalidFormat
  | outOfRange (w : PyVal)
  | updated (w : PyVal)
  | inserted (w : PyVal)
deriving DecidableEq

/-- Model of `context.args[0].replace(',', '.')`: comma is a single character, so the
substring replacement is a character map. -/
def normalizeArg (s : List Char) : List Char := s.map (fun c => if c = ',' then '.' else c)

/-- Does a ledger row match the caller's `(user_id, date)` pair?  The code
compares `str(record.get('User ID')) == str(user.id)` and
`record.get('Data') == date_str` (raw string equality). -/
def rowMatches (uid dateStr : String) (r : SheetRow) : Bool :=
  r.userId == uid && r.data == dateStr

/-- Model of `register_weight` (`src/bot.py:104-149`, identically `src/bot_webhook.py:103-130`):
parse the argument with comma normalised to dot, range-check it, then
upsert: overwrite the first row matching `(user_id, today's date string)`,
or append a new row.  `dateStr`/`ts` are today's formatted date and
timestamp, computed by the (external) clock. -/
def registerWeight (store : List SheetRow) (uid name dateStr ts : String)
    (raw : List Char) : RegisterResult × List SheetRow :=
  match pyFloat (normalizeArg raw) with
  | none => (.invalidFormat, store)
  | some w =>
    if pyLt w (.fin 20) || pyLt (.fin 300) w then (.outOfRange w, store)
    else
      match findRowIdx (rowMatches uid dateStr) store with
      | some i => (.updated w, store.set i ⟨uid, name, dateStr, some w, ts⟩)
      | none => (.inserted w, store ++ [⟨uid, name, dateStr, some w, ts⟩])

/-- A register result that wrote to the ledger (update or insert path). -/
def RegisterResult.isSuccess : RegisterResult → Bool
  | .updated _ => true
  | .inserted _ => true
  | _ => false

/-- One submission for a fixed `(user_id, date)` pair: the free arguments of
a `register_weight` call other than the pair itself. -/
structure Submission where
  name : String
  ts : String
  raw : List Char

/-- Run a sequence of `register_weight` calls for a fixed `(user_id, date)`
pair; `none` if any call fails (does not reach the upsert). -/
def runAll (uid dateStr : String) : List SheetRow → List Submission → Option (List SheetRow)
  | st, [] => some st
  | st, s :: rest =>
    match (registerWeight st uid s.name dateStr s.ts s.raw).1.isSuccess with
    | true => runAll uid dateStr (registerWeight st uid s.name dateStr s.ts s.raw).2 rest
    | false => none

/-! ## Calendar model

Dates are modelled by their proleptic Gregorian ordinal (as in CPython's
`datetime.date.toordinal`: day 1 is 0001-01-01, a Monday).
`datetime.strptime(s, '%Y-%m-%d').date()` is modelled by `parseDate`:
exactly four year digits, one or two month / day digits separated by `-`,
nothing else, and the resulting calendar date must exist (otherwise
`ValueError`, i.e. `none`). -/

def isLeap (y : Nat) : Bool := (y % 4 == 0 && y % 100 != 0) || y % 400 == 0

def daysInMonth (y m : Nat) : Nat :=
  if m = 2 then (if isLeap y then 29 else 28)
  else if m = 4 ∨ m = 6 ∨ m = 9 ∨ m = 11 then 30
  else 31

def daysBeforeMonth (y m : Nat) : Nat :=
  (List.range (m - 1)).foldl (fun acc i => acc + daysInMonth y (i + 1)) 0

/-- Model of `datetime.date(y, m, d).toordinal()`. -/
def toOrdinal (y m d : Nat) : Int :=
  ((365 * (y - 1) + (y - 1) / 4 + (y - 1) / 400 - (y - 1) / 100
    + daysBeforeMonth y m + d : Nat) : Int)

/-- Model of `datetime.date(y, m, d)`: `none` when the date does not exist. -/
def mkDate (y m d : Nat) : Option Int :=
  if 1 ≤ y ∧ 1 ≤ m ∧ m ≤ 12 ∧ 1 ≤ d ∧ d ≤ daysInMonth y m then some (toOrdinal y m d)
  else none

def parseDay (y m : Nat) : List Char → Option Int
  | [d1] => if d1.isDigit then mkDate y m (digitVal d1) else none
  | [d1, d2] => if d1.isDigit && d2.isDigit then mkDate y m (digitVal d1 * 10 + digitVal d2)
    else none
  | _ => none

def parseMonthDay (y : Nat) : List Char → Option Int
  | m1 :: '-' :: rest => if m1.isDigit then parseDay y (digitVal m1) rest else none
  | m1 :: m2 :: '-' :: rest =>
    if m1.isDigit && m2.isDigit then parseDay y (digitVal m1 * 10 + digitVal m2) rest else none
  | _ => none

/-- Model of `datetime.strptime(s, '%Y-%m-%d').date().toordinal()`. -/
def parseDate (s : String) : Option Int :=
  match s.toList with
  | y1 :: y2 :: y3 :: y4 :: '-' :: rest =>
    if y1.isDigit && y2.isDigit && y3.isDigit && y4.isDigit then
      parseMonthDay (digitVal y1 * 1000 + digitVal y2 * 100 + digitVal y3 * 10 + digitVal y4)
        rest
    else none
  | _ => none

/-- Python's `date.weekday()`: 0 = Monday … 6 = Sunday. -/
def pyWeekday (d : Int) : Int := (d - 1) % 7

/-- Model of `last_monday = today - timedelta(days=days_since_monday + 7)`
(`src/bot.py:175`, `src/bot_webhook.py:146`). -/
def lastMonday (today : Int) : Int := today - (pyWeekday today + 7)

/-- Model of `last_sunday = last_monday + timedelta(days=6)` (`src/bot.py:177`). -/
def lastSunday (today : Int) : Int := lastMonday today + 6

/-! ## Python's stable sort by date

`list.sort(key=lambda x: x['data'])` (and its `reverse=True` form) is a
stable sort by the date key.  A stable sort is exactly the sort of the
index-tagged list by the lexicographic (key, original position) order, which
is what `pySortByDate` / `pySortByDateDesc` compute. -/

/-- Tag each element with its 0-based original position, starting at `n`. -/
def tagIdx (n : Nat) : List α → List (Nat × α)
  | [] => []
  | a :: l => (n, a) :: tagIdx (n + 1) l

/-- Lexicographic (date ascending, original position) order. -/
def ascRel (a b : Nat × (Int × PyVal)) : Prop :=
  a.2.1 < b.2.1 ∨ (a.2.1 = b.2.1 ∧ a.1 ≤ b.1)

/-- Lexicographic (date descending, original position) order. -/
def descRel (a b : Nat × (Int × PyVal)) : Prop :=
  b.2.1 < a.2.1 ∨ (a.2.1 = b.2.1 ∧ a.1 ≤ b.1)

instance : DecidableRel ascRel := fun a b => by unfold ascRel; infer_instance

instance : DecidableRel descRel := fun a b => by unfold descRel; infer_instance

instance : IsTotal (Nat × (Int × PyVal)) ascRel where
  total a b := by
    unfold ascRel
    rcases lt_trichotomy a.2.1 b.2.1 with h | h | h
    · exact Or.inl (Or.inl h)
    · rcases Nat.le_total a.1 b.1 with h' | h'
      · exact Or.inl (Or.inr ⟨h, h'⟩)
      · exact Or.inr (Or.inr ⟨h.symm, h'⟩)
    · exact Or.inr (Or.inl h)

instance : IsTrans (Nat × (Int × PyVal)) ascRel where
  trans a b c hab hbc := by
    unfold ascRel at *
    rcases hab with h1 | ⟨h1, h1'⟩ <;> rcases hbc with h2 | ⟨h2, h2'⟩
    · exact Or.inl (h1.trans h2)
    · exact Or.inl (h2 ▸ h1)
    · exact Or.inl (h1 ▸ h2)
    · exact Or.inr ⟨h1.trans h2, h1'.trans h2'⟩

instance : IsTotal (Nat × (Int × PyVal)) descRel where
  total a b := by
    unfold descRel
    rcases lt_trichotomy a.2.1 b.2.1 with h | h | h
    · exact Or.inr (Or.inl h)
    · rcases Nat.le_total a.1 b.1 with h' | h'
      · exact Or.inl (Or.inr ⟨h, h'⟩)
      · exact Or.inr (Or.inr ⟨h.symm, h'⟩)
    · exact Or.inl (Or.inl h)

instance : IsTrans (Nat × (Int × PyVal)) descRel where
  trans a b c hab hbc := by
    unfold descRel at *
    rcases hab with h1 | ⟨h1, h1'⟩ <;> rcases hbc with h2 | ⟨h2, h2'⟩
    · exact Or.inl (h2.trans h1)
    · exact Or.inl (h2 ▸ h1)
    · exact Or.inl (h1.symm ▸ h2)
    · exact Or.inr ⟨h1.trans h2, h1'.trans h2'⟩

/-- Stable ascending sort by date (Python `sort(key=lambda x: x['data'])`). -/
def pySortByDate (l : List (Int × PyVal)) : List (Int × PyVal) :=
  ((tagIdx 0 l).insertionSort ascRel).map Prod.snd

/-- Stable descending sort by date
(Python `sort(key=lambda x: x['data'], reverse=True)`). -/
def pySortByDateDesc (l : List (Int × PyVal)) : List (Int × PyVal) :=
  ((tagIdx 0 l).insertionSort descRel).map Prod.snd

/-! ## WeeklyAverage ('/media', `src/bot.py:165-231`, `src/bot_webhook.py:141-185`) -/

/-- The user's records as the analytics code sees them: rows whose
`str(User ID)` equals the caller's id, whose `'Data'` cell parses as
`%Y-%m-%d` and whose `'Peso (kg)'` cell parses as a float; rows failing
either parse are skipped (`except (ValueError, TypeError): continue`). -/
def userParsedRecords (uid : String) (store : List SheetRow) : List (Int × PyVal) :=
  store.filterMap (fun r =>
    if r.userId == uid then
      match parseDate r.data, r.peso with
      | some d, some w => some (d, w)
      | _, _ => none
    else none)

/-- Result of `weekly_average`: the empty variant still carries the computed
window (the code prints the period in both branches). -/
inductive WeeklyResult where
  | empty (lastMonday lastSunday : Int)
  | result (lastMonday lastSunday : Int) (average : PyVal) (count : Nat)
      (items : List (Int × PyVal))
deriving DecidableEq

/-- The caller's records matched to the previous-week window
(`if last_monday <= record_date <= last_sunday`, `src/bot.py:188`). -/
def weeklyMatches (uid : String) (store : List SheetRow) (today : Int) : List (Int × PyVal) :=
  (userParsedRecords uid store).filter
    (fun p => lastMonday today ≤ p.1 && p.1 ≤ lastSunday today)

/-- Model of `weekly_average` (`src/bot.py:165-231`): previous-week window, filter the
caller's records to it, arithmetic mean `sum/len` over the matches, items
sorted ascending by date with Python's stable sort. -/
def weeklyAverage (uid : String) (store : List SheetRow) (today : Int) : WeeklyResult :=
  if weeklyMatches uid store today = [] then .empty (lastMonday today) (lastSunday today)
  else
    .result (lastMonday today) (lastSunday today)
      (pyDivNat (pySum ((weeklyMatches uid store today).map Prod.snd))
        (weeklyMatches uid store today).length)
      (weeklyMatches uid store today).length
      (pySortByDate (weeklyMatches uid store today))

/-! ## RecentHistory ('/storico', `src/bot.py:233-306`, `src/bot_webhook.py:187-232`) -/

/-- Per-entry delta against the next-older displayed entry, as classified by
the code: `diff > 0` → increase (📈), `diff < 0` → decrease (📉), otherwise
the "unchanged" line (`=`). -/
inductive DeltaClass where
  | increase (d : PyVal)
  | decrease (d : PyVal)
  | unchanged
deriving DecidableEq

/-- Overall trend line: downward `-mag` or upward `+mag`; no constructor for
the equal case because the code prints no trend line then. -/
inductive Trend where
  | down (mag : PyVal)
  | up (mag : PyVal)
deriving DecidableEq

/-- Model of `if diff > 0 … elif diff < 0 … else …` (`src/bot.py:272-280`). -/
def classify (d : PyVal) : DeltaClass :=
  if pyLt (.fin 0) d then .increase d
  else if pyLt d (.fin 0) then .decrease d
  else .unchanged

/-- The per-entry annotation loop (`src/bot.py:266-285`): each entry except
the last is paired with the classified difference to the next entry; the
last carries no delta. -/
def mkDeltas : List (Int × PyVal) → List ((Int × PyVal) × Option DeltaClass)
  | [] => []
  | [r] => [(r, none)]
  | r :: r2 :: rest => (r, some (classify (pySub r.2 r2.2))) :: mkDeltas (r2 :: rest)

/-- The trend comparison `weights[0]` vs `weights[-1]` (`src/bot.py:293-297`).
The defaults of `headD`/`getLastD` are never used: the code only evaluates
this with at least two weights. -/
def trendOf (ws : List PyVal) : Option Trend :=
  if pyLt (ws.headD (.fin 0)) (ws.getLastD (.fin 0)) then
    some (.down (pySub (ws.getLastD (.fin 0)) (ws.headD (.fin 0))))
  else if pyLt (ws.getLastD (.fin 0)) (ws.headD (.fin 0)) then
    some (.up (pySub (ws.headD (.fin 0)) (ws.getLastD (.fin 0))))
  else none

/-- Model of `user_records.sort(key=…, reverse=True); recent_records = user_records[:7]`
(`src/bot.py:259-261`). -/
def recentRecords (uid : String) (store : List SheetRow) : List (Int × PyVal) :=
  (pySortByDateDesc (userParsedRecords uid store)).take 7

/-- The summary block (`src/bot.py:287-297`): mean of the truncated window
and trend, only when more than one entry is displayed. -/
def historySummary (uid : String) (store : List SheetRow) : Option (PyVal × Option Trend) :=
  if 1 < (recentRecords uid store).length then
    some (pyDivNat (pySum ((recentRecords uid store).map Prod.snd))
        (recentRecords uid store).length,
      trendOf ((recentRecords uid store).map Prod.snd))
  else none

/-- Result of `history`. -/
inductive HistoryResult where
  | empty
  | result (entries : List ((Int × PyVal) × Option DeltaClass))
      (summary : Option (PyVal × Option Trend))
deriving DecidableEq

/-- Model of `history` (`src/bot.py:233-306`): empty variant when the user has no
parseable record, else the annotated 7 most recent records plus summary. -/
def history (uid : String) (store : List SheetRow) : HistoryResult :=
  if userParsedRecords uid store = [] then .empty
  else .result (mkDeltas (recentRecords uid store)) (historySummary uid store)

/-- Demo ledger for the history witnesses: user 1, three records, weights
80, 79, 79 from most recent to oldest. -/
def histDemoStore : List SheetRow :=
  [⟨"1", "u", "2024-01-05", some (.fin 80), "t"⟩,
   ⟨"1", "u", "2024-01-04", some (.fin 79), "t"⟩,
   ⟨"1", "u", "2024-01-03", some (.fin 79), "t"⟩]

/-- Demo ledger for the trend witness: user 1, newest weight 78, oldest 80. -/
def histTrendStore : List SheetRow :=
  [⟨"1", "u", "2024-01-05", some (.fin 78), "t"⟩,
   ⟨"1", "u", "2024-01-01", some (.fin 80), "t"⟩]

/-! ## Subscription registry and daily dispatch
('Notifiche' worksheet, `src/bot_webhook.py:234-275`) -/

/-- A row of the 'Notifiche' worksheet: `User ID`, `Username`, `Attivo`. -/
structure NotifRow where
  userId : String
  username : String
  attivo : String
deriving DecidableEq

inductive ToggleResult where
  | usage
  | activated
  | deactivated
deriving DecidableEq

/-- Model of the cell write overwriting only the `Attivo` cell: overwrite only the `Attivo` cell
of the row at the given 0-based position. -/
def setAttivoFalse : List NotifRow → Nat → List NotifRow
  | [], _ => []
  | r :: t, 0 => ⟨r.userId, r.username, "FALSE"⟩ :: t
  | r :: t, n + 1 => r :: setAttivoFalse t n

/-- Model of Python `int(str)` on a chat id: optional whitespace and sign,
then a nonempty digit run (underscores between digits allowed); `none` is a
`ValueError`. -/
def pyInt (cs : List Char) : Option Int :=
  let sr := splitSign (stripSpaces cs)
  match parseDigitPart sr.2 with
  | some (v, _, []) => some (if sr.1 then -(v : Int) else (v : Int))
  | _ => none

/-- Model of `stato = context.args[0].lower()` (`src/bot_webhook.py:240`): Python's
`str.lower`, character by character. -/
def lowerArg (arg : List Char) : List Char := arg.map Char.toLower

/-- Model of `toggle_notifica` (`src/bot_webhook.py:234-262`): reject arguments other
than `on`/`off`; find the caller's row by `str(User ID)`; `on` overwrites the
whole row (or appends) with `Attivo = TRUE`; `off` overwrites only the
`Attivo` cell with `FALSE` when a row exists, and writes nothing otherwise. -/
def toggleNotifica (subs : List NotifRow) (uid name : String) (arg : List Char) :
    ToggleResult × List NotifRow :=
  if lowerArg arg ≠ "on".toList ∧ lowerArg arg ≠ "off".toList then (.usage, subs)
  else
    match findRowIdx (fun r => r.userId == uid) subs with
    | some i =>
      if lowerArg arg = "on".toList then (.activated, subs.set i ⟨uid, name, "TRUE"⟩)
      else (.deactivated, setAttivoFalse subs i)
    | none =>
      if lowerArg arg = "on".toList then (.activated, subs ++ [⟨uid, name, "TRUE"⟩])
      else (.deactivated, subs)

/-- Model of `str(rec.get('Attivo')).upper() == "TRUE"` (`src/bot_webhook.py:268`),
with Python's `str.upper` character by character. -/
def isActive (r : NotifRow) : Bool := r.attivo.toList.map Char.toUpper == "TRUE".toList

/-- Model of `send_daily_notifications` (`src/bot_webhook.py:264-275`).  The single
`try/except` wraps the whole loop: the first raising `send_message` (or a
chat-id `int()` parse failure) terminates the loop; the exception is caught
and logged at dispatch level, never propagated to the scheduler.  `sendOk`
models which sends succeed; the returned list is the user ids that received
a send attempt, in loop order. -/
def sendDailyNotifications (subs : List NotifRow) (sendOk : String → Bool) : List String :=
  match subs with
  | [] => []
  | r :: rest =>
    match isActive r with
    | true =>
      match pyInt r.userId.toList with
      | none => []
      | some _ =>
        match sendOk r.userId with
        | true => r.userId :: sendDailyNotifications rest sendOk
        | false => [r.userId]
    | false => sendDailyNotifications rest sendOk

/-- Specification of abort-on-first-failure dispatch: attempts run through
the active users in order and stop right after the first failing one. -/
def attemptedUpToFirstFailure (acts : List String) (sendOk : String → Bool) : List String :=
  match acts with
  | [] => []
  | u :: rest => if sendOk u then u :: attemptedUpToFirstFailure rest sendOk else [u]

/-! ## Lemmas and claim theorems -/

/-! ## Lemmas about the linear scan and the upsert -/

theorem findRowIdx_eq_none_iff {p : α → Bool} :
    ∀ {l : List α}, findRowIdx p l = none ↔ l.filter p = [] := by
  intro l
  induction l with
  | nil => simp [findRowIdx]
  | cons a l ih =>
    cases hpa : p a <;> simp [findRowIdx, hpa, List.filter_cons, ih]

theorem findRowIdx_lt_length {p : α → Bool} :
    ∀ {l : List α} {i}, findRowIdx p l = some i → i < l.length := by
  intro l
  induction l with
  | nil => intro i h; simp [findRowIdx] at h
  | cons a l ih =>
    intro i h
    cases hpa : p a with
    | true =>
      simp only [findRowIdx, hpa, Option.some.injEq] at h
      subst h; simp
    | false =>
      simp only [findRowIdx, hpa, Option.map_eq_some'] at h
      obtain ⟨j, hj, rfl⟩ := h
      have := ih hj
      simp only [List.length_cons]
      omega

theorem filter_set_findRowIdx {p : α → Bool} {x : α} (hx : p x = true) :
    ∀ {l : List α} {i}, findRowIdx p l = some i → (l.filter p).length ≤ 1 →
      (l.set i x).filter p = [x] := by
  intro l
  induction l with
  | nil => intro i h; simp [findRowIdx] at h
  | cons a l ih =>
    intro i h hlen
    cases hpa : p a with
    | true =>
      simp only [findRowIdx, hpa, Option.some.injEq] at h
      subst h
      simp only [List.filter_cons, hpa, if_true, List.length_cons] at hlen
      have hnil : l.filter p = [] := by
        have h0 : (l.filter p).length = 0 := by omega
        exact List.length_eq_zero.mp h0
      simp [List.filter_cons, hx, hnil]
    | false =>
      simp only [findRowIdx, hpa, Option.map_eq_some'] at h
      obtain ⟨j, hj, rfl⟩ := h
      simp only [List.filter_cons, hpa, if_neg Bool.false_ne_true] at hlen
      simp [List.filter_cons, hpa, ih hj hlen]

/-- The fresh row written by `register_weight` matches the `(uid, date)` pair. -/
theorem rowMatches_newRow (uid name dateStr ts : String) (w : PyVal) :
    rowMatches uid dateStr ⟨uid, name, dateStr, some w, ts⟩ = true := by
  simp [rowMatches]

/-- Unfolding equation of `register_weight` on an unparseable argument. -/
theorem registerWeight_parse_none {store : List SheetRow} {uid name dateStr ts : String}
    {raw : List Char} (h : pyFloat (normalizeArg raw) = none) :
    registerWeight store uid name dateStr ts raw = (.invalidFormat, store) := by
  unfold registerWeight; rw [h]

/-- Unfolding equation of `register_weight` on a parsed argument. -/
theorem registerWeight_parse_some {store : List SheetRow} {uid name dateStr ts : String}
    {raw : List Char} {w : PyVal} (h : pyFloat (normalizeArg raw) = some w) :
    registerWeight store uid name dateStr ts raw =
      if pyLt w (.fin 20) || pyLt (.fin 300) w then (.outOfRange w, store)
      else
        match findRowIdx (rowMatches uid dateStr) store with
        | some i => (.updated w, store.set i ⟨uid, name, dateStr, some w, ts⟩)
        | none => (.inserted w, store ++ [⟨uid, name, dateStr, some w, ts⟩]) := by
  unfold registerWeight; rw [h]

/-- A successful `register_weight` call on a ledger holding at most one row
for the `(uid, date)` pair leaves exactly the freshly written row for the
pair. -/
theorem registerWeight_success_filter {store : List SheetRow} {uid name dateStr ts : String}
    {raw : List Char}
    (hc : (store.filter (rowMatches uid dateStr)).length ≤ 1)
    (hs : (registerWeight store uid name dateStr ts raw).1.isSuccess = true) :
    ∃ w, pyFloat (normalizeArg raw) = some w ∧
      (registerWeight store uid name dateStr ts raw).2.filter (rowMatches uid dateStr)
        = [⟨uid, name, dateStr, some w, ts⟩] := by
  cases hw : pyFloat (normalizeArg raw) with
  | none => rw [registerWeight_parse_none hw] at hs; simp [RegisterResult.isSuccess] at hs
  | some w =>
    rw [registerWeight_parse_some hw] at hs ⊢
    by_cases hr : (pyLt w (.fin 20) || pyLt (.fin 300) w) = true
    · rw [if_pos hr] at hs; simp [RegisterResult.isSuccess] at hs
    · rw [if_neg hr]
      refine ⟨w, rfl, ?_⟩
      cases hidx : findRowIdx (rowMatches uid dateStr) store with
      | some i =>
        exact filter_set_findRowIdx (rowMatches_newRow uid name dateStr ts w) hidx hc
      | none =>
        show (store ++ [(⟨uid, name, dateStr, some w, ts⟩ : SheetRow)]).filter
          (rowMatches uid dateStr) = _
        rw [List.filter_append, findRowIdx_eq_none_iff.mp hidx]
        simp [rowMatches_newRow]

/-- On a ledger with no row for the pair, a successful call takes the insert
path (appends). -/
theorem registerWeight_insert_path {store : List SheetRow} {uid name dateStr ts : String}
    {raw : List Char}
    (hc : store.filter (rowMatches uid dateStr) = [])
    (hs : (registerWeight store uid name dateStr ts raw).1.isSuccess = true) :
    ∃ w, (registerWeight store uid name dateStr ts raw).1 = .inserted w ∧
      (registerWeight store uid name dateStr ts raw).2
        = store ++ [⟨uid, name, dateStr, some w, ts⟩] := by
  cases hw : pyFloat (normalizeArg raw) with
  | none => rw [registerWeight_parse_none hw] at hs; simp [RegisterResult.isSuccess] at hs
  | some w =>
    rw [registerWeight_parse_some hw] at hs ⊢
    by_cases hr : (pyLt w (.fin 20) || pyLt (.fin 300) w) = true
    · rw [if_pos hr] at hs; simp [RegisterResult.isSuccess] at hs
    · rw [if_neg hr]
      cases hidx : findRowIdx (rowMatches uid dateStr) store with
      | some i =>
        exact absurd (findRowIdx_eq_none_iff.mpr hc) (by simp [hidx])
      | none => exact ⟨w, rfl, rfl⟩

/-- On a ledger with exactly one row for the pair, a successful call takes
the update path (overwrites in place; the ledger does not grow). -/
theorem registerWeight_update_path {store : List SheetRow} {uid name dateStr ts : String}
    {raw : List Char}
    (hc : (store.filter (rowMatches uid dateStr)).length = 1)
    (hs : (registerWeight store uid name dateStr ts raw).1.isSuccess = true) :
    ∃ w, (registerWeight store uid name dateStr ts raw).1 = .updated w ∧
      (registerWeight store uid name dateStr ts raw).2.length = store.length := by
  cases hw : pyFloat (normalizeArg raw) with
  | none => rw [registerWeight_parse_none hw] at hs; simp [RegisterResult.isSuccess] at hs
  | some w =>
    rw [registerWeight_parse_some hw] at hs ⊢
    by_cases hr : (pyLt w (.fin 20) || pyLt (.fin 300) w) = true
    · rw [if_pos hr] at hs; simp [RegisterResult.isSuccess] at hs
    · rw [if_neg hr]
      cases hidx : findRowIdx (rowMatches uid dateStr) store with
      | some i =>
        exact ⟨w, rfl, List.length_set store _ _⟩
      | none =>
        have := findRowIdx_eq_none_iff.mp hidx
        rw [this] at hc
        simp at hc

/-- After a whole successful sequence of submissions for one pair, the ledger
holds exactly one row for the pair: the one written by the last submission. -/
theorem runAll_filter {uid dateStr : String} :
    ∀ (subs : List Submission) (st st' : List SheetRow) (s : Submission),
      (st.filter (rowMatches uid dateStr)).length ≤ 1 →
      runAll uid dateStr st (s :: subs) = some st' →
      ∃ w, pyFloat (normalizeArg ((s :: subs).getLast (by simp)).raw) = some w ∧
        st'.filter (rowMatches uid dateStr) =
          [⟨uid, ((s :: subs).getLast (by simp)).name, dateStr, some w,
            ((s :: subs).getLast (by simp)).ts⟩] := by
  intro subs
  induction subs with
  | nil =>
    intro st st' s hc hrun
    unfold runAll at hrun
    cases hs : (registerWeight st uid s.name dateStr s.ts s.raw).1.isSuccess with
    | false => rw [hs] at hrun; cases hrun
    | true =>
      rw [hs] at hrun
      unfold runAll at hrun
      cases hrun
      simpa using registerWeight_success_filter hc hs
  | cons s2 rest ih =>
    intro st st' s hc hrun
    unfold runAll at hrun
    cases hs : (registerWeight st uid s.name dateStr s.ts s.raw).1.isSuccess with
    | false => rw [hs] at hrun; cases hrun
    | true =>
      rw [hs] at hrun
      obtain ⟨w1, _, hfil⟩ := registerWeight_success_filter hc hs
      have hc1 : (((registerWeight st uid s.name dateStr s.ts s.raw).2).filter
          (rowMatches uid dateStr)).length ≤ 1 := by rw [hfil]; simp
      have := ih _ st' s2 hc1 hrun
      simpa [List.getLast_cons] using this

/-! ## Bridges between the kernel-reducible operations and the standard ones -/

theorem qAdd_eq (a b : ℚ) : qAdd a b = a + b := by
  have h := Rat.divInt_add_divInt a.num b.num
    (Int.natCast_ne_zero.mpr a.den_ne_zero) (Int.natCast_ne_zero.mpr b.den_ne_zero)
  rw [Rat.num_divInt_den, Rat.num_divInt_den] at h
  unfold qAdd
  exact h.symm

theorem qDivNat_eq (a : ℚ) (n : Nat) : qDivNat a n = a / n := by
  unfold qDivNat
  rw [Rat.divInt_eq_div]
  push_cast
  rw [div_mul_eq_div_div, Rat.num_div_den]

theorem pyLt_fin_iff {a b : ℚ} : pyLt (.fin a) (.fin b) = true ↔ a < b := Iff.rfl

theorem mem_set_self {l : List α} {i : Nat} (h : i < l.length) (x : α) :
    x ∈ l.set i x := by
  induction l generalizing i with
  | nil => simp at h
  | cons a t ih =>
    cases i with
    | zero => simp
    | succ j =>
      simp only [List.set, List.mem_cons]
      exact Or.inr (ih (by simpa using h))

/-! ## Claim theorems: RecordWeight (C1, C2, C3) -/

/-- C1: for every `user_id` and calendar date, starting from a ledger with at
most one record for the pair, a first successful `RecordWeight` submission
appends a new row, a later one (ledger holding exactly one row for the pair)
overwrites that row in place without growing the ledger, and after any
nonempty sequence of successful submissions the ledger holds exactly one
record for the pair, carrying the most recently submitted weight. -/
theorem c1_upsert_invariant (uid dateStr : String) :
    (∀ (store : List SheetRow) (name ts : String) (raw : List Char),
      store.filter (rowMatches uid dateStr) = [] →
      (registerWeight store uid name dateStr ts raw).1.isSuccess = true →
      ∃ w, (registerWeight store uid name dateStr ts raw).1 = .inserted w ∧
        (registerWeight store uid name dateStr ts raw).2
          = store ++ [⟨uid, name, dateStr, some w, ts⟩]) ∧
    (∀ (store : List SheetRow) (name ts : String) (raw : List Char),
      (store.filter (rowMatches uid dateStr)).length = 1 →
      (registerWeight store uid name dateStr ts raw).1.isSuccess = true →
      ∃ w, (registerWeight store uid name dateStr ts raw).1 = .updated w ∧
        (registerWeight store uid name dateStr ts raw).2.length = store.length) ∧
    (∀ (store st' : List SheetRow) (s : Submission) (subs : List Submission),
      (store.filter (rowMatches uid dateStr)).length ≤ 1 →
      runAll uid dateStr store (s :: subs) = some st' →
      ∃ w, pyFloat (normalizeArg ((s :: subs).getLast (by simp)).raw) = some w ∧
        st'.filter (rowMatches uid dateStr) =
          [⟨uid, ((s :: subs).getLast (by simp)).name, dateStr, some w,
            ((s :: subs).getLast (by simp)).ts⟩]) :=
  ⟨fun _ _ _ _ hc hs => registerWeight_insert_path hc hs,
   fun _ _ _ _ hc hs => registerWeight_update_path hc hs,
   fun store st' s subs hc hrun => runAll_filter subs store st' s hc hrun⟩

/-- Witness for C1: from the empty ledger, submitting `75,5` then `76` for
user `1` on `2025-01-06` leaves exactly one row for the pair, holding `76`. -/
theorem c1_upsert_invariant_witness :
    ∃ w, pyFloat (normalizeArg "76".toList) = some w ∧
      List.filter (rowMatches "1" "2025-01-06")
        [⟨"1", "u2", "2025-01-06", some (.fin 76), "t2"⟩]
        = [⟨"1", "u2", "2025-01-06", some w, "t2"⟩] :=
  (c1_upsert_invariant "1" "2025-01-06").2.2 []
    [⟨"1", "u2", "2025-01-06", some (.fin 76), "t2"⟩]
    ⟨"u1", "t1", "75,5".toList⟩ [⟨"u2", "t2", "76".toList⟩] (by decide) (by decide)

/-- Characters that are decimal digits are unchanged by the comma-to-dot
normalisation. -/
theorem normalizeArg_digits {d : List Char} (h : ∀ c ∈ d, c.isDigit = true) :
    normalizeArg d = d := by
  induction d with
  | nil => rfl
  | cons a l ih =>
    have ha : a.isDigit = true := h a (by simp)
    have hne : a ≠ ',' := by rintro rfl; exact absurd ha (by decide)
    simp only [normalizeArg, List.map_cons, if_neg hne]
    have := ih (fun c hc => h c (by simp [hc]))
    simp only [normalizeArg] at this
    rw [this]

/-- C2 counterexample: submitting the text `nan` is not rejected as
`InvalidFormat`; it parses to the float `nan`, passes the range check (both
IEEE comparisons with `nan` are false) and is stored in the ledger. -/
theorem c2_nan_counterexample :
    (registerWeight [] "1" "u" "2025-01-06" "t" "nan".toList).1 = .inserted .nan ∧
    (registerWeight [] "1" "u" "2025-01-06" "t" "nan".toList).1 ≠ .invalidFormat ∧
    (registerWeight [] "1" "u" "2025-01-06" "t" "nan".toList).2
      = [⟨"1", "u", "2025-01-06", some .nan, "t"⟩] := by decide

/-- C2 (amended): the argument is parsed with comma normalised to dot, so the
comma and dot forms of any digit string parse to the same numeric value;
`InvalidFormat` is returned iff the normalised text is not parseable by
Python `float` at all.  Non-finite parses are not `InvalidFormat`: `inf` and
`-inf` are rejected as `OutOfRange` by the range check, while `nan` passes
the range check and is stored. -/
theorem c2_parse_amended :
    (∀ (d1 d2 : List Char), (∀ c ∈ d1, c.isDigit = true) → (∀ c ∈ d2, c.isDigit = true) →
      pyFloat (normalizeArg (d1 ++ ',' :: d2)) = pyFloat (normalizeArg (d1 ++ '.' :: d2))) ∧
    (∀ (store : List SheetRow) (uid name dateStr ts : String) (raw : List Char),
      (registerWeight store uid name dateStr ts raw).1 = .invalidFormat ↔
        pyFloat (normalizeArg raw) = none) ∧
    (∀ (store : List SheetRow) (uid name dateStr ts : String),
      registerWeight store uid name dateStr ts "inf".toList = (.outOfRange .inf, store) ∧
      registerWeight store uid name dateStr ts "-inf".toList = (.outOfRange .ninf, store) ∧
      ((registerWeight store uid name dateStr ts "nan".toList).1 = .updated .nan ∨
       (registerWeight store uid name dateStr ts "nan".toList).1 = .inserted .nan)) := by
  refine ⟨?_, ?_, ?_⟩
  · intro d1 d2 h1 h2
    have he : normalizeArg (d1 ++ ',' :: d2) = normalizeArg (d1 ++ '.' :: d2) := by
      simp only [normalizeArg, List.map_append, List.map_cons]
      norm_num
    rw [he]
  · intro store uid name dateStr ts raw
    cases hw : pyFloat (normalizeArg raw) with
    | none => rw [registerWeight_parse_none hw]; simp
    | some w =>
      rw [registerWeight_parse_some hw]
      split
      · simp
      · split <;> simp
  · intro store uid name dateStr ts
    refine ⟨?_, ?_, ?_⟩
    · rw [registerWeight_parse_some (w := .inf) (by decide)]
      rfl
    · rw [registerWeight_parse_some (w := .ninf) (by decide)]
      rfl
    · rw [registerWeight_parse_some (w := .nan) (by decide)]
      cases hidx : findRowIdx (rowMatches uid dateStr) store with
      | some i => exact Or.inl rfl
      | none => exact Or.inr rfl

/-- Witness for C2 (amended): `75,5` and `75.5` parse to the same value. -/
theorem c2_parse_amended_witness :
    pyFloat (normalizeArg ("75".toList ++ ',' :: "5".toList))
      = pyFloat (normalizeArg ("75".toList ++ '.' :: "5".toList)) :=
  c2_parse_amended.1 "75".toList "5".toList (by decide) (by decide)

/-- C3: for a successfully parsed finite weight `q`, `RecordWeight` fails
with `OutOfRange` (and writes nothing) exactly when `q < 20` or `q > 300`;
when `20 ≤ q ≤ 300` (boundaries included) the call succeeds and the value is
stored. -/
theorem c3_range_check (store : List SheetRow) (uid name dateStr ts : String)
    (raw : List Char) (q : ℚ) (hw : pyFloat (normalizeArg raw) = some (.fin q)) :
    (registerWeight store uid name dateStr ts raw = (.outOfRange (.fin q), store)
        ↔ (q < 20 ∨ 300 < q)) ∧
    (20 ≤ q → q ≤ 300 →
      (registerWeight store uid name dateStr ts raw).1.isSuccess = true ∧
      ∃ r ∈ (registerWeight store uid name dateStr ts raw).2,
        r.userId = uid ∧ r.data = dateStr ∧ r.peso = some (.fin q)) := by
  have hcond : (pyLt (.fin q) (.fin 20) || pyLt (.fin 300) (.fin q)) = true
      ↔ (q < 20 ∨ 300 < q) := by
    rw [Bool.or_eq_true, pyLt_fin_iff, pyLt_fin_iff]
  constructor
  · rw [registerWeight_parse_some hw]
    by_cases h : q < 20 ∨ 300 < q
    · rw [if_pos (hcond.mpr h)]
      simp [h]
    · rw [if_neg (fun hc => h (hcond.mp hc))]
      cases hidx : findRowIdx (rowMatches uid dateStr) store with
      | some i => simp [Prod.ext_iff, h]
      | none => simp [Prod.ext_iff, h]
  · intro h20 h300
    have hn : ¬(pyLt (.fin q) (.fin 20) || pyLt (.fin 300) (.fin q)) = true := by
      rw [hcond]
      push_neg
      exact ⟨h20, h300⟩
    rw [registerWeight_parse_some hw, if_neg hn]
    cases hidx : findRowIdx (rowMatches uid dateStr) store with
    | some i =>
      refine ⟨rfl, ⟨uid, name, dateStr, some (.fin q), ts⟩,
        mem_set_self (findRowIdx_lt_length hidx) _, rfl, rfl, rfl⟩
    | none =>
      exact ⟨rfl, ⟨uid, name, dateStr, some (.fin q), ts⟩, by simp, rfl, rfl, rfl⟩

/-- Witness for C3: the boundary value `20` is accepted and stored. -/
theorem c3_range_check_witness :
    (registerWeight [] "1" "u" "2025-01-06" "t" "20".toList).1.isSuccess = true ∧
    ∃ r ∈ (registerWeight [] "1" "u" "2025-01-06" "t" "20".toList).2,
      r.userId = "1" ∧ r.data = "2025-01-06" ∧ r.peso = some (.fin 20) :=
  (c3_range_check [] "1" "u" "2025-01-06" "t" "20".toList 20 (by decide)).2
    (by norm_num) (by norm_num)

theorem tagIdx_map_snd (n : Nat) : ∀ l : List α, (tagIdx n l).map Prod.snd = l := by
  intro l
  induction l generalizing n with
  | nil => rfl
  | cons a t ih => simp [tagIdx, ih]

theorem tagIdx_fst_ge (n : Nat) : ∀ (l : List α), ∀ x ∈ tagIdx n l, n ≤ x.1 := by
  intro l
  induction l generalizing n with
  | nil => intro x hx; simp [tagIdx] at hx
  | cons a t ih =>
    intro x hx
    simp only [tagIdx, List.mem_cons] at hx
    rcases hx with rfl | hx
    · exact le_refl n
    · exact le_of_lt (lt_of_lt_of_le (Nat.lt_succ_self n) (ih (n + 1) x hx))

theorem tagIdx_pairwise (n : Nat) :
    ∀ (l : List α), (tagIdx n l).Pairwise (fun a b => a.1 < b.1) := by
  intro l
  induction l generalizing n with
  | nil => exact List.Pairwise.nil
  | cons a t ih =>
    refine List.Pairwise.cons ?_ (ih (n + 1))
    intro b hb
    exact lt_of_lt_of_le (Nat.lt_succ_self n) (tagIdx_fst_ge (n + 1) t b hb)

theorem pairwise_imp_of_mem {R S : α → α → Prop} {l : List α}
    (h : ∀ a ∈ l, ∀ b ∈ l, R a b → S a b) (hp : l.Pairwise R) : l.Pairwise S := by
  induction hp with
  | nil => exact List.Pairwise.nil
  | @cons a l ha hp ih =>
    exact List.Pairwise.cons (fun b hb => h _ (by simp) b (by simp [hb]) (ha b hb))
      (ih (fun x hx b hb hr => h x (by simp [hx]) b (by simp [hb]) hr))

/-- Stability of the index-tagged sort: for any key value `d`, the sorted
list restricted to key `d` is the original list restricted to key `d`. -/
theorem stable_filter_generic (r : Nat × (Int × PyVal) → Nat × (Int × PyVal) → Prop)
    [DecidableRel r] [IsTotal (Nat × (Int × PyVal)) r] [IsTrans (Nat × (Int × PyVal)) r]
    (hkey : ∀ a b, r a b → a.2.1 = b.2.1 → a.1 ≤ b.1)
    (l : List (Int × PyVal)) (d : Int) :
    ((tagIdx 0 l).insertionSort r).filter (fun p => p.2.1 == d)
      = (tagIdx 0 l).filter (fun p => p.2.1 == d) := by
  haveI : IsAntisymm (Nat × (Int × PyVal)) (fun a b => a.1 < b.1) :=
    ⟨fun a b h h' => absurd h' (by omega)⟩
  have hperm : ((tagIdx 0 l).insertionSort r).Perm (tagIdx 0 l) :=
    List.perm_insertionSort r _
  have hfperm := hperm.filter (fun p => p.2.1 == d)
  have hne : ((tagIdx 0 l).insertionSort r).Pairwise (fun a b => a.1 ≠ b.1) := by
    refine (hperm.pairwise_iff (fun h => Ne.symm h)).mpr ?_
    exact (tagIdx_pairwise 0 l).imp (fun h => Nat.ne_of_lt h)
  have hsorted : ((tagIdx 0 l).insertionSort r).Pairwise r := List.sorted_insertionSort r _
  have hfsorted : (((tagIdx 0 l).insertionSort r).filter (fun p => p.2.1 == d)).Pairwise
      (fun a b => a.1 < b.1) := by
    have h1 : (((tagIdx 0 l).insertionSort r).filter (fun p => p.2.1 == d)).Pairwise
        (fun a b => r a b ∧ a.1 ≠ b.1) :=
      (hsorted.and hne).sublist (List.filter_sublist _)
    refine pairwise_imp_of_mem ?_ h1
    intro a ha b hb hab
    have hda : a.2.1 = d := by simpa using List.of_mem_filter ha
    have hdb : b.2.1 = d := by simpa using List.of_mem_filter hb
    exact lt_of_le_of_ne (hkey a b hab.1 (hda.trans hdb.symm)) hab.2
  have horig : ((tagIdx 0 l).filter (fun p => p.2.1 == d)).Pairwise
      (fun a b => a.1 < b.1) :=
    (tagIdx_pairwise 0 l).sublist (List.filter_sublist _)
  exact List.eq_of_perm_of_sorted hfperm hfsorted horig

theorem filter_map_prod_snd (s : List (Nat × (Int × PyVal))) (d : Int) :
    (s.map Prod.snd).filter (fun p => p.1 == d)
      = (s.filter (fun p => p.2.1 == d)).map Prod.snd := by
  induction s with
  | nil => rfl
  | cons a t ih =>
    by_cases h : (a.2.1 == d) = true <;>
      simp [List.filter_cons, h, ih]

theorem ascRel_key {a b : Nat × (Int × PyVal)} (hab : ascRel a b) (heq : a.2.1 = b.2.1) :
    a.1 ≤ b.1 := by
  rcases hab with h | ⟨_, h'⟩
  · rw [heq] at h; exact absurd h (lt_irrefl _)
  · exact h'

theorem descRel_key {a b : Nat × (Int × PyVal)} (hab : descRel a b) (heq : a.2.1 = b.2.1) :
    a.1 ≤ b.1 := by
  rcases hab with h | ⟨_, h'⟩
  · rw [heq] at h; exact absurd h (lt_irrefl _)
  · exact h'

theorem pySortByDate_perm (l : List (Int × PyVal)) : (pySortByDate l).Perm l := by
  have h := (List.perm_insertionSort ascRel (tagIdx 0 l)).map Prod.snd
  rwa [tagIdx_map_snd] at h

theorem pySortByDate_sorted (l : List (Int × PyVal)) :
    (pySortByDate l).Pairwise (fun a b => a.1 ≤ b.1) := by
  unfold pySortByDate
  rw [List.pairwise_map]
  refine (List.sorted_insertionSort ascRel (tagIdx 0 l)).imp ?_
  intro a b hab
  rcases hab with h | ⟨h, _⟩
  · exact le_of_lt h
  · exact le_of_eq h

theorem pySortByDate_stable (l : List (Int × PyVal)) (d : Int) :
    (pySortByDate l).filter (fun p => p.1 == d) = l.filter (fun p => p.1 == d) := by
  unfold pySortByDate
  rw [filter_map_prod_snd, stable_filter_generic ascRel (fun a b => ascRel_key),
    ← filter_map_prod_snd, tagIdx_map_snd]

theorem pySortByDateDesc_perm (l : List (Int × PyVal)) : (pySortByDateDesc l).Perm l := by
  have h := (List.perm_insertionSort descRel (tagIdx 0 l)).map Prod.snd
  rwa [tagIdx_map_snd] at h

theorem pySortByDateDesc_sorted (l : List (Int × PyVal)) :
    (pySortByDateDesc l).Pairwise (fun a b => b.1 ≤ a.1) := by
  unfold pySortByDateDesc
  rw [List.pairwise_map]
  refine (List.sorted_insertionSort descRel (tagIdx 0 l)).imp ?_
  intro a b hab
  rcases hab with h | ⟨h, _⟩
  · exact le_of_lt h
  · exact le_of_eq h.symm

theorem pySortByDateDesc_stable (l : List (Int × PyVal)) (d : Int) :
    (pySortByDateDesc l).filter (fun p => p.1 == d) = l.filter (fun p => p.1 == d) := by
  unfold pySortByDateDesc
  rw [filter_map_prod_snd, stable_filter_generic descRel (fun a b => descRel_key),
    ← filter_map_prod_snd, tagIdx_map_snd]

theorem pySum_fin_aux (qs : List ℚ) : ∀ a : ℚ,
    (qs.map PyVal.fin).foldl pyAdd (.fin a) = .fin (a + qs.sum) := by
  induction qs with
  | nil => intro a; simp
  | cons q t ih =>
    intro a
    simp only [List.map_cons, List.foldl_cons, pyAdd, qAdd_eq, ih, List.sum_cons]
    rw [add_assoc]

/-- Python's `sum` over a list of finite floats is the exact rational sum in
this model. -/
theorem pySum_fin (qs : List ℚ) : pySum (qs.map PyVal.fin) = .fin qs.sum := by
  unfold pySum
  rw [pySum_fin_aux, zero_add]

theorem pyDivNat_fin (q : ℚ) (n : Nat) : pyDivNat (.fin q) n = .fin (q / n) := by
  simp [pyDivNat, qDivNat_eq]

/-- C4: the previous-week window is `last_monday = (Monday of the week of
now) - 7`, `last_sunday = last_monday + 6`, for every value of `now`
(`last_monday` always falls on a Monday); with no record of the user in the
window, `weekly_average` returns the empty variant carrying exactly these
boundaries. -/
theorem c4_weekly_window (today : Int) (uid : String) (store : List SheetRow) :
    lastMonday today = (today - pyWeekday today) - 7 ∧
    lastSunday today = lastMonday today + 6 ∧
    pyWeekday (lastMonday today) = 0 ∧
    (weeklyMatches uid store today = [] →
      weeklyAverage uid store today = .empty (lastMonday today) (lastSunday today)) := by
  refine ⟨?_, rfl, ?_, ?_⟩
  · unfold lastMonday
    ring
  · simp only [lastMonday, pyWeekday]
    omega
  · intro h
    unfold weeklyAverage
    rw [if_pos h]

/-- Witness for C4: a Monday `now` (ordinal 738893 = 2024-01-08) and an empty
store yield the empty variant carrying the window 2024-01-01 … 2024-01-07. -/
theorem c4_weekly_window_witness :
    pyWeekday (lastMonday 738893) = 0 ∧
    weeklyAverage "1" [] 738893 = .empty 738886 738892 :=
  ⟨(c4_weekly_window 738893 "1" []).2.2.1,
   (c4_weekly_window 738893 "1" []).2.2.2 (by decide)⟩

/-- C5: with at least one match in the window, `weekly_average` returns the
plain arithmetic mean `sum/count` of the matched weights (exactly the
rational mean when all weights are finite) together with the matched set
sorted ascending by date by a stable sort: a permutation of the matches,
pairwise nondecreasing dates, and for every date the records of that date
appear exactly as in the original record order. -/
theorem c5_weekly_mean (uid : String) (store : List SheetRow) (today : Int)
    (hne : weeklyMatches uid store today ≠ []) :
    ∃ items,
      weeklyAverage uid store today =
        .result (lastMonday today) (lastSunday today)
          (pyDivNat (pySum ((weeklyMatches uid store today).map Prod.snd))
            (weeklyMatches uid store today).length)
          (weeklyMatches uid store today).length items ∧
      items.Perm (weeklyMatches uid store today) ∧
      items.Pairwise (fun a b => a.1 ≤ b.1) ∧
      (∀ d : Int, items.filter (fun p => p.1 == d)
          = (weeklyMatches uid store today).filter (fun p => p.1 == d)) ∧
      (∀ qs : List ℚ, (weeklyMatches uid store today).map Prod.snd = qs.map PyVal.fin →
        pyDivNat (pySum ((weeklyMatches uid store today).map Prod.snd))
            (weeklyMatches uid store today).length
          = .fin (qs.sum / qs.length)) := by
  refine ⟨pySortByDate (weeklyMatches uid store today), ?_, pySortByDate_perm _,
    pySortByDate_sorted _, pySortByDate_stable _, ?_⟩
  · unfold weeklyAverage
    rw [if_neg hne]
  · intro qs hqs
    have hlen : (weeklyMatches uid store today).length = qs.length := by
      have := congrArg List.length hqs
      simpa using this
    rw [hqs, pySum_fin, pyDivNat_fin, hlen]

/-- Witness for C5: a single record dated 2024-01-03 (ordinal 738888) for
user 1, with `now` = 2024-01-08, yields mean 80 over one match. -/
theorem c5_weekly_mean_witness :
    ∃ items,
      weeklyAverage "1" [⟨"1", "u", "2024-01-03", some (.fin 80), "t"⟩] 738893 =
        .result (lastMonday 738893) (lastSunday 738893)
          (pyDivNat (pySum ((weeklyMatches "1"
              [⟨"1", "u", "2024-01-03", some (.fin 80), "t"⟩] 738893).map Prod.snd))
            (weeklyMatches "1" [⟨"1", "u", "2024-01-03", some (.fin 80), "t"⟩] 738893).length)
          (weeklyMatches "1" [⟨"1", "u", "2024-01-03", some (.fin 80), "t"⟩] 738893).length
          items ∧
      items.Perm (weeklyMatches "1" [⟨"1", "u", "2024-01-03", some (.fin 80), "t"⟩] 738893) ∧
      items.Pairwise (fun a b => a.1 ≤ b.1) ∧
      (∀ d : Int, items.filter (fun p => p.1 == d)
          = (weeklyMatches "1" [⟨"1", "u", "2024-01-03", some (.fin 80), "t"⟩] 738893).filter
            (fun p => p.1 == d)) ∧
      (∀ qs : List ℚ,
        (weeklyMatches "1" [⟨"1", "u", "2024-01-03", some (.fin 80), "t"⟩] 738893).map Prod.snd
          = qs.map PyVal.fin →
        pyDivNat (pySum ((weeklyMatches "1"
            [⟨"1", "u", "2024-01-03", some (.fin 80), "t"⟩] 738893).map Prod.snd))
          (weeklyMatches "1" [⟨"1", "u", "2024-01-03", some (.fin 80), "t"⟩] 738893).length
          = .fin (qs.sum / qs.length)) :=
  c5_weekly_mean "1" [⟨"1", "u", "2024-01-03", some (.fin 80), "t"⟩] 738893 (by decide)

theorem rat_blt_asymm {q r : ℚ} (h : Rat.blt q r = true) : Rat.blt r q = false := by
  have h1 : q < r := h
  cases hbl : Rat.blt r q with
  | false => rfl
  | true => exact absurd (show r < q from hbl) (lt_asymm h1)

theorem pyLt_asymm : ∀ {a b : PyVal}, pyLt a b = true → pyLt b a = false := by
  intro a b h
  cases a <;> cases b
  case fin.fin => exact rat_blt_asymm h
  all_goals first
    | rfl
    | exact (Bool.false_ne_true h).elim

theorem pyLt_irrefl : ∀ a : PyVal, pyLt a a = false := by
  intro a
  cases a with
  | fin q =>
    cases hbl : Rat.blt q q with
    | false => exact hbl
    | true => exact absurd (show q < q from hbl) (lt_irrefl q)
  | nan => rfl
  | inf => rfl
  | ninf => rfl

theorem mkDeltas_length : ∀ l : List (Int × PyVal), (mkDeltas l).length = l.length := by
  intro l
  induction l with
  | nil => rfl
  | cons r t ih =>
    cases t with
    | nil => rfl
    | cons r2 rest =>
      simp only [mkDeltas, List.length_cons]
      rw [ih]
      simp

theorem mkDeltas_map_fst : ∀ l : List (Int × PyVal), (mkDeltas l).map Prod.fst = l := by
  intro l
  induction l with
  | nil => rfl
  | cons r t ih =>
    cases t with
    | nil => rfl
    | cons r2 rest =>
      simp only [mkDeltas, List.map_cons]
      rw [ih]

theorem mkDeltas_delta : ∀ (l : List (Int × PyVal)) (i : Nat)
    (h1 : i < (mkDeltas l).length) (h2 : i + 1 < (mkDeltas l).length),
    ((mkDeltas l).get ⟨i, h1⟩).2
      = some (classify (pySub ((mkDeltas l).get ⟨i, h1⟩).1.2
          ((mkDeltas l).get ⟨i + 1, h2⟩).1.2)) := by
  intro l
  induction l with
  | nil => intro i h1 h2; simp [mkDeltas] at h1
  | cons r t ih =>
    cases t with
    | nil =>
      intro i h1 h2
      simp only [mkDeltas, List.length_singleton] at h2
      omega
    | cons r2 rest =>
      intro i h1 h2
      cases i with
      | zero => cases rest <;> rfl
      | succ j =>
        have hl : (mkDeltas (r :: r2 :: rest)).length
            = (mkDeltas (r2 :: rest)).length + 1 := by
          simp [mkDeltas]
        have h1' : j < (mkDeltas (r2 :: rest)).length := by omega
        have h2' : j + 1 < (mkDeltas (r2 :: rest)).length := by omega
        exact ih j h1' h2'

theorem mkDeltas_getLast_none : ∀ (l : List (Int × PyVal)) (e : (Int × PyVal) × Option DeltaClass),
    (mkDeltas l).getLast? = some e → e.2 = none := by
  intro l
  induction l with
  | nil => intro e h; simp [mkDeltas] at h
  | cons r t ih =>
    cases t with
    | nil =>
      intro e h
      simp only [mkDeltas, List.getLast?_singleton, Option.some.injEq] at h
      rw [← h]
    | cons r2 rest =>
      intro e h
      apply ih
      rw [← h]
      show _ = (mkDeltas (r :: r2 :: rest)).getLast?
      cases rest with
      | nil => rfl
      | cons r3 rest2 => rfl

/-- C6: for a user with at least one parseable record, `history` returns the
annotated entries of the at-most-7 most recent records: dates pairwise
nonincreasing (most recent first), every entry except the last annotated
with the classified difference to the next-older displayed entry
(increase when `delta > 0`, decrease when `delta < 0`, unchanged when
`delta == 0`), and the last (oldest displayed) entry carrying no delta. -/
theorem c6_recent_history (uid : String) (store : List SheetRow)
    (hne : userParsedRecords uid store ≠ []) :
    history uid store
      = .result (mkDeltas (recentRecords uid store)) (historySummary uid store) ∧
    (mkDeltas (recentRecords uid store)).length ≤ 7 ∧
    ((mkDeltas (recentRecords uid store)).map Prod.fst).Pairwise
      (fun a b => b.1 ≤ a.1) ∧
    (∀ (i : Nat) (h1 : i < (mkDeltas (recentRecords uid store)).length)
        (h2 : i + 1 < (mkDeltas (recentRecords uid store)).length),
      ((mkDeltas (recentRecords uid store)).get ⟨i, h1⟩).2
        = some (classify (pySub ((mkDeltas (recentRecords uid store)).get ⟨i, h1⟩).1.2
            ((mkDeltas (recentRecords uid store)).get ⟨i + 1, h2⟩).1.2))) ∧
    (∀ e, (mkDeltas (recentRecords uid store)).getLast? = some e → e.2 = none) ∧
    (∀ d : PyVal,
      (pyLt (.fin 0) d = true → classify d = .increase d) ∧
      (pyLt d (.fin 0) = true → classify d = .decrease d) ∧
      (d = .fin 0 → classify d = .unchanged)) := by
  refine ⟨?_, ?_, ?_, mkDeltas_delta _, mkDeltas_getLast_none _, ?_⟩
  · unfold history
    rw [if_neg hne]
  · rw [mkDeltas_length]
    unfold recentRecords
    exact List.length_take_le 7 _
  · rw [mkDeltas_map_fst]
    unfold recentRecords
    exact (pySortByDateDesc_sorted _).sublist (List.take_sublist 7 _)
  · intro d
    refine ⟨?_, ?_, ?_⟩
    · intro h
      unfold classify
      rw [if_pos h]
    · intro h
      have h0 : pyLt (.fin 0) d = false := pyLt_asymm h
      simp [classify, h0, h]
    · rintro rfl
      decide

/-- Witness for C6: user 1 with weights 80, 79, 79 (most recent first). -/
theorem c6_recent_history_witness :
    history "1" histDemoStore
      = .result (mkDeltas (recentRecords "1" histDemoStore))
          (historySummary "1" histDemoStore) ∧
    (mkDeltas (recentRecords "1" histDemoStore)).length ≤ 7 ∧
    ((mkDeltas (recentRecords "1" histDemoStore)).map Prod.fst).Pairwise
      (fun a b => b.1 ≤ a.1) ∧
    (∀ (i : Nat) (h1 : i < (mkDeltas (recentRecords "1" histDemoStore)).length)
        (h2 : i + 1 < (mkDeltas (recentRecords "1" histDemoStore)).length),
      ((mkDeltas (recentRecords "1" histDemoStore)).get ⟨i, h1⟩).2
        = some (classify (pySub
            ((mkDeltas (recentRecords "1" histDemoStore)).get ⟨i, h1⟩).1.2
            ((mkDeltas (recentRecords "1" histDemoStore)).get ⟨i + 1, h2⟩).1.2))) ∧
    (∀ e, (mkDeltas (recentRecords "1" histDemoStore)).getLast? = some e → e.2 = none) ∧
    (∀ d : PyVal,
      (pyLt (.fin 0) d = true → classify d = .increase d) ∧
      (pyLt d (.fin 0) = true → classify d = .decrease d) ∧
      (d = .fin 0 → classify d = .unchanged)) :=
  c6_recent_history "1" histDemoStore (by decide)

/-- C7: the history summary exists exactly for at least two displayed
entries: it carries the mean `sum/count` of the truncated window (the exact
rational mean when all weights are finite) and the trend comparing
`weights[0]` with `weights[-1]`: downward of `oldest - newest` when the most
recent is lower, upward of `newest - oldest` when higher, and no trend line
when equal. -/
theorem c7_history_trend (uid : String) (store : List SheetRow)
    (hne : userParsedRecords uid store ≠ []) :
    history uid store
      = .result (mkDeltas (recentRecords uid store)) (historySummary uid store) ∧
    ((recentRecords uid store).length < 2 → historySummary uid store = none) ∧
    (2 ≤ (recentRecords uid store).length →
      historySummary uid store
        = some (pyDivNat (pySum ((recentRecords uid store).map Prod.snd))
            (recentRecords uid store).length,
          trendOf ((recentRecords uid store).map Prod.snd)) ∧
      (∀ qs : List ℚ, (recentRecords uid store).map Prod.snd = qs.map PyVal.fin →
        pyDivNat (pySum ((recentRecords uid store).map Prod.snd))
            (recentRecords uid store).length = .fin (qs.sum / qs.length))) ∧
    (∀ ws : List PyVal,
      (pyLt (ws.headD (.fin 0)) (ws.getLastD (.fin 0)) = true →
        trendOf ws = some (.down (pySub (ws.getLastD (.fin 0)) (ws.headD (.fin 0))))) ∧
      (pyLt (ws.getLastD (.fin 0)) (ws.headD (.fin 0)) = true →
        trendOf ws = some (.up (pySub (ws.headD (.fin 0)) (ws.getLastD (.fin 0))))) ∧
      (ws.headD (.fin 0) = ws.getLastD (.fin 0) → trendOf ws = none)) := by
  refine ⟨?_, ?_, ?_, ?_⟩
  · unfold history
    rw [if_neg hne]
  · intro h
    unfold historySummary
    rw [if_neg (by omega)]
  · intro h
    constructor
    · unfold historySummary
      rw [if_pos (by omega)]
    · intro qs hqs
      have hlen : (recentRecords uid store).length = qs.length := by
        have hq := congrArg List.length hqs
        simpa using hq
      rw [hqs, pySum_fin, pyDivNat_fin, hlen]
  · intro ws
    refine ⟨?_, ?_, ?_⟩
    · intro h
      unfold trendOf
      rw [if_pos h]
    · intro h
      have h0 : pyLt (ws.headD (.fin 0)) (ws.getLastD (.fin 0)) = false := pyLt_asymm h
      unfold trendOf
      rw [h0, if_neg Bool.false_ne_true, if_pos h]
    · intro h
      unfold trendOf
      rw [h]
      simp [pyLt_irrefl]

/-- Witness for C7: user 1 with newest weight 78 and oldest weight 80 over
two records. -/
theorem c7_history_trend_witness :
    history "1" histTrendStore
      = .result (mkDeltas (recentRecords "1" histTrendStore))
          (historySummary "1" histTrendStore) ∧
    ((recentRecords "1" histTrendStore).length < 2 →
      historySummary "1" histTrendStore = none) ∧
    (2 ≤ (recentRecords "1" histTrendStore).length →
      historySummary "1" histTrendStore
        = some (pyDivNat (pySum ((recentRecords "1" histTrendStore).map Prod.snd))
            (recentRecords "1" histTrendStore).length,
          trendOf ((recentRecords "1" histTrendStore).map Prod.snd)) ∧
      (∀ qs : List ℚ,
        (recentRecords "1" histTrendStore).map Prod.snd = qs.map PyVal.fin →
        pyDivNat (pySum ((recentRecords "1" histTrendStore).map Prod.snd))
            (recentRecords "1" histTrendStore).length = .fin (qs.sum / qs.length))) ∧
    (∀ ws : List PyVal,
      (pyLt (ws.headD (.fin 0)) (ws.getLastD (.fin 0)) = true →
        trendOf ws = some (.down (pySub (ws.getLastD (.fin 0)) (ws.headD (.fin 0))))) ∧
      (pyLt (ws.getLastD (.fin 0)) (ws.headD (.fin 0)) = true →
        trendOf ws = some (.up (pySub (ws.headD (.fin 0)) (ws.getLastD (.fin 0))))) ∧
      (ws.headD (.fin 0) = ws.getLastD (.fin 0) → trendOf ws = none)) :=
  c7_history_trend "1" histTrendStore (by decide)

/-- C8 counterexample: with two opted-in users `1` and `2` and the send to
`1` failing, user `2` — active, and with a send that would succeed — never
receives a send attempt: the failure aborts the remaining iteration. -/
theorem c8_dispatch_counterexample :
    sendDailyNotifications [⟨"1", "u", "TRUE"⟩, ⟨"2", "v", "TRUE"⟩] (fun u => u != "1")
      = ["1"] ∧
    isActive ⟨"2", "v", "TRUE"⟩ = true ∧
    (fun u : String => u != "1") "2" = true ∧
    "2" ∉ sendDailyNotifications [⟨"1", "u", "TRUE"⟩, ⟨"2", "v", "TRUE"⟩]
      (fun u => u != "1") := by decide

/-- C8 (amended): during `RunDailyReminder` the first failing send aborts
dispatch to all remaining users: when every active row has a numeric chat
id, the users that receive a send attempt are exactly the active users in
sheet order up to and including the first one whose send fails; the raised
exception is caught and logged at dispatch level (the operation always
returns), not propagated to the scheduler. -/
theorem c8_dispatch_aborts (subs : List NotifRow) (sendOk : String → Bool)
    (hids : ∀ r ∈ subs, isActive r = true → (pyInt r.userId.toList).isSome = true) :
    sendDailyNotifications subs sendOk
      = attemptedUpToFirstFailure ((subs.filter isActive).map (fun r => r.userId)) sendOk := by
  induction subs with
  | nil => rfl
  | cons r rest ih =>
    have hrest : ∀ x ∈ rest, isActive x = true → (pyInt x.userId.toList).isSome = true :=
      fun x hx h => hids x (by simp [hx]) h
    cases hact : isActive r with
    | false =>
      unfold sendDailyNotifications
      rw [hact, List.filter_cons_of_neg (by simp [hact])]
      exact ih hrest
    | true =>
      have hsome : (pyInt r.userId.toList).isSome = true := hids r (by simp) hact
      unfold sendDailyNotifications
      rw [hact, List.filter_cons_of_pos hact, List.map_cons]
      cases hint : pyInt r.userId.toList with
      | none => rw [hint] at hsome; simp at hsome
      | some k =>
        unfold attemptedUpToFirstFailure
        cases hok : sendOk r.userId with
        | false => rfl
        | true => exact congrArg (List.cons r.userId) (ih hrest)

/-- Witness for C8 (amended) at the counterexample input. -/
theorem c8_dispatch_aborts_witness :
    sendDailyNotifications [⟨"1", "u", "TRUE"⟩, ⟨"2", "v", "TRUE"⟩] (fun u => u != "1")
      = attemptedUpToFirstFailure
          (([⟨"1", "u", "TRUE"⟩, ⟨"2", "v", "TRUE"⟩].filter isActive).map
            (fun r => r.userId))
          (fun u => u != "1") :=
  c8_dispatch_aborts [⟨"1", "u", "TRUE"⟩, ⟨"2", "v", "TRUE"⟩] (fun u => u != "1")
    (by decide)

/-- C9: `SetSubscription(active=false)` with no existing row for the user is
a no-op success (nothing written); `SetSubscription(active=true)` always
leaves a row for the user with `Attivo = TRUE` — appended when absent,
overwritten in place when present. -/
theorem c9_subscription_upsert (uid name : String) :
    (∀ subs : List NotifRow, findRowIdx (fun r => r.userId == uid) subs = none →
      toggleNotifica subs uid name "off".toList = (.deactivated, subs)) ∧
    (∀ subs : List NotifRow,
      ∃ r ∈ (toggleNotifica subs uid name "on".toList).2,
        r.userId = uid ∧ r.attivo = "TRUE") ∧
    (∀ subs : List NotifRow, findRowIdx (fun r => r.userId == uid) subs = none →
      toggleNotifica subs uid name "on".toList
        = (.activated, subs ++ [⟨uid, name, "TRUE"⟩])) ∧
    (∀ (subs : List NotifRow) (i : Nat),
      findRowIdx (fun r => r.userId == uid) subs = some i →
      toggleNotifica subs uid name "on".toList
        = (.activated, subs.set i ⟨uid, name, "TRUE"⟩)) := by
  refine ⟨?_, ?_, ?_, ?_⟩
  · intro subs h
    unfold toggleNotifica
    rw [if_neg (by decide), h]
    rfl
  · intro subs
    unfold toggleNotifica
    rw [if_neg (by decide)]
    cases hidx : findRowIdx (fun r => r.userId == uid) subs with
    | some i =>
      rw [if_pos (by decide)]
      exact ⟨⟨uid, name, "TRUE"⟩, mem_set_self (findRowIdx_lt_length hidx) _, rfl, rfl⟩
    | none =>
      rw [if_pos (by decide)]
      exact ⟨⟨uid, name, "TRUE"⟩, by simp, rfl, rfl⟩
  · intro subs h
    unfold toggleNotifica
    rw [if_neg (by decide), h, if_pos (by decide)]
  · intro subs i h
    unfold toggleNotifica
    rw [if_neg (by decide), h]
    rfl

/-- Witness for C9: on the empty registry, `off` writes nothing and `on`
creates an active row. -/
theorem c9_subscription_upsert_witness :
    toggleNotifica [] "1" "u" "off".toList = (.deactivated, []) ∧
    ∃ r ∈ (toggleNotifica [] "1" "u" "on".toList).2,
      r.userId = "1" ∧ r.attivo = "TRUE" :=
  ⟨(c9_subscription_upsert "1" "u").1 [] (by decide),
   (c9_subscription_upsert "1" "u").2.1 []⟩

/-- The analytics reads depend only on the caller's rows. -/
theorem userParsedRecords_filter (uid : String) (store : List SheetRow) :
    userParsedRecords uid store
      = userParsedRecords uid (store.filter (fun r => r.userId == uid)) := by
  induction store with
  | nil => rfl
  | cons r t ih =>
    unfold userParsedRecords at ih ⊢
    by_cases hr : (r.userId == uid) = true
    · rw [show List.filter (fun x : SheetRow => x.userId == uid) (r :: t)
          = r :: List.filter (fun x : SheetRow => x.userId == uid) t from by
        simp [List.filter_cons, hr]]
      rw [List.filterMap_cons, List.filterMap_cons, ih]
    · have hfalse : (r.userId == uid) = false := by
        cases hb : (r.userId == uid) with
        | false => rfl
        | true => exact absurd hb hr
      rw [show List.filter (fun x : SheetRow => x.userId == uid) (r :: t)
          = List.filter (fun x : SheetRow => x.userId == uid) t from by
        simp [List.filter_cons, hfalse]]
      rw [List.filterMap_cons, hfalse]
      exact ih

/-- C10: `WeeklyAverage` and `RecentHistory` depend only on the store rows
whose `User ID` (as a string) equals the caller's: two stores agreeing on
the caller's rows produce identical results, whatever the other users' rows
are. -/
theorem c10_per_user_isolation (uid : String) (store1 store2 : List SheetRow) (today : Int)
    (h : store1.filter (fun r => r.userId == uid)
      = store2.filter (fun r => r.userId == uid)) :
    weeklyAverage uid store1 today = weeklyAverage uid store2 today ∧
    history uid store1 = history uid store2 := by
  have hu : userParsedRecords uid store1 = userParsedRecords uid store2 := by
    rw [userParsedRecords_filter uid store1, h, ← userParsedRecords_filter]
  constructor
  · unfold weeklyAverage weeklyMatches
    rw [hu]
  · unfold history historySummary recentRecords
    rw [hu]

/-- Witness for C10: adding another user's row does not change user 1's
weekly average or history. -/
theorem c10_per_user_isolation_witness :
    weeklyAverage "1" [⟨"1", "u", "2024-01-03", some (.fin 80), "t"⟩,
        ⟨"2", "v", "2024-01-04", some (.fin 90), "t"⟩] 738893
      = weeklyAverage "1" [⟨"1", "u", "2024-01-03", some (.fin 80), "t"⟩] 738893 ∧
    history "1" [⟨"1", "u", "2024-01-03", some (.fin 80), "t"⟩,
        ⟨"2", "v", "2024-01-04", some (.fin 90), "t"⟩]
      = history "1" [⟨"1", "u", "2024-01-03", some (.fin 80), "t"⟩] :=
  c10_per_user_isolation "1" _ _ 738893 (by decide)

end WeightTracker
